import Mathlib

/-!
Verification of the two chatbot pipelines of this repository against their
specification: the book-recommendation assistant (`books.py`) and the
pizza-ordering assistant (`pizza.py`).

The Python code is shallowly embedded: pure helpers become Lean functions,
float prices become exact rationals, the mutable order record becomes explicit
state passing (`Order → Order × PizzaResp`), and user-facing reply strings are
modelled as tagged response values carrying the data that the corresponding
Python f-string interpolates.
-/

namespace ChatbotSpec

/-! ### Shared string helpers

Python's `str.lower()` / `str.strip()` modelled on `List Char` / `String`.
`str.strip()` removes the six ASCII whitespace characters. -/

/-- Python whitespace, as used by `str.strip()`. -/
def isPySpace (c : Char) : Bool :=
  c = ' ' || c = '\t' || c = '\n' || c = '\r' || c = '\x0b' || c = '\x0c'

/-- Python `str.strip()` on a character list. -/
def pyStripList (l : List Char) : List Char :=
  ((l.dropWhile isPySpace).reverse.dropWhile isPySpace).reverse

/-- Python `str.strip()`. -/
def pyStrip (s : String) : String :=
  String.mk (pyStripList s.toList)

/-- Python `str.lower()` (ASCII inputs). -/
def pyLower (s : String) : String :=
  String.mk (s.toList.map Char.toLower)

/-- The apostrophe character (kept out of string literals). -/
def apos : Char := Char.ofNat 39

/-! ## Pizza assistant (`pizza.py`)

The `PizzeriaBot` catalogs, the mutable `current_order` record, the seven
order operations, and the `execute_function` dispatcher. -/

/-- `self.available_ingredients`: the four-category ingredient catalog. -/
def available_ingredients : List (String × List String) :=
  [("meats", ["pepperoni", "sausage", "ham", "bacon", "chicken", "beef", "salami"]),
   ("vegetables", ["mushrooms", "onions", "bell peppers", "tomatoes", "olives",
                   "spinach", "arugula", "basil", "garlic"]),
   ("cheeses", ["mozzarella", "cheddar", "parmesan", "feta", "goat cheese"]),
   ("sauces", ["tomato sauce", "white sauce", "pesto", "bbq sauce", "ranch"])]

/-- `self.pizza_sizes`: size name, price in dollars, human-readable size. -/
def pizza_sizes : List (String × ℚ × String) :=
  [("small", (mkRat 1299 100, "10 inch")),
   ("medium", (mkRat 1599 100, "12 inch")),
   ("large", (mkRat 1899 100, "14 inch")),
   ("extra large", (mkRat 2199 100, "16 inch"))]

/-- `self.current_order`: the single mutable order record. -/
structure Order where
  size : Option String
  ingredients : List String
  total_price : ℚ
  confirmed : Bool
deriving DecidableEq, Repr

/-- The initial `current_order` built in `__init__`. -/
def initial_order : Order :=
  { size := none, ingredients := [], total_price := 0, confirmed := false }

/-- The `typo_map` dictionary of `normalize_ingredient`. -/
def typo_map : List (String × String) :=
  [("peperoni", "pepperoni"),
   ("pepperoni", "pepperoni"),
   ("mozarela", "mozzarella"),
   ("mozzarela", "mozzarella"),
   ("mozzarella", "mozzarella"),
   ("mushroom", "mushrooms"),
   ("mushroms", "mushrooms"),
   ("mashrooms", "mushrooms"),
   ("onion", "onions"),
   ("tomatoe", "tomatoes"),
   ("olive", "olives"),
   ("bellpepper", "bell peppers"),
   ("bell pepper", "bell peppers"),
   ("green pepper", "bell peppers"),
   ("cheese", "mozzarella")]

/-- `normalize_ingredient`: lower-case and strip, then `typo_map.get(i, i)`. -/
def normalize_ingredient (ingredient : String) : String :=
  let i := pyStrip (pyLower ingredient)
  (typo_map.lookup i).getD i

/-- The flat `all_ingredients` list rebuilt inside `create_pizza_with_size`
and `add_ingredient`: every catalog entry, lower-cased, in category order. -/
def all_ingredients : List String :=
  (available_ingredients.map Prod.snd).flatten.map pyLower

/-- The inner search for the catalog spelling of a normalized name
(`for category ...: for orig_ingredient ...: if orig_ingredient.lower() == ...`),
as used by `add_ingredient`, which returns out of both loops at the first hit. -/
def findOriginal (normalized : String) : Option String :=
  ((available_ingredients.map Prod.snd).flatten).find? (fun orig => pyLower orig == normalized)

/-- The same double loop as used by `create_pizza_with_size`, whose `break`
only leaves the inner loop: each category appends its first match. -/
def appendCategoryMatches (ings : List String) (normalized : String) : List String :=
  available_ingredients.foldl
    (fun acc cat =>
      match cat.2.find? (fun orig => pyLower orig == normalized) with
      | some orig => acc ++ [orig]
      | none => acc)
    ings

/-- User-facing replies, one constructor per Python return statement, carrying
the data interpolated into the corresponding f-string. `keyError` models the
`KeyError` a `self.pizza_sizes[...]` subscript would raise on a size missing
from the table. -/
inductive PizzaResp where
  | sizeSet (size : String) (price : ℚ) (descr : String)
  | sizeSetWithMain (size : String) (price : ℚ) (descr : String) (added : List String)
  | unknownSize
  | ingredientAdded (orig : String)
  | implicitNone
  | alreadyHave (normalized : String)
  | notAvailable (ingredient : String)
  | ingredientRemoved (removed : String)
  | notOnPizza (ingredient : String)
  | showNoSize
  | showOrder (size : String) (price : ℚ) (descr : String) (ings : List String)
  | needSizeFirst
  | needToppingsFirst
  | orderConfirmed (size : String) (ings : List String) (total : ℚ)
  | ingredientCatalog
  | couldNotUnderstand
  | keyError
deriving DecidableEq, Repr

/-- `create_pizza_with_size(size, main_ingredient=None)`: validates the size,
sets it, and (when `main_ingredient` is truthy and its normalization is
available) appends the catalog spelling per matching category. -/
def create_pizza_with_size (size : String) (main_ingredient : Option String)
    (o : Order) : Order × PizzaResp :=
  let s := pyStrip (pyLower size)
  match pizza_sizes.lookup s with
  | some (price, descr) =>
    let o1 := { o with size := some s }
    match main_ingredient with
    | some mi =>
      if mi ≠ "" then
        let n := normalize_ingredient mi
        if n ∈ all_ingredients then
          let newIngs := appendCategoryMatches o1.ingredients n
          ({ o1 with ingredients := newIngs },
           .sizeSetWithMain s price descr (newIngs.drop o1.ingredients.length))
        else (o1, .sizeSet s price descr)
      else (o1, .sizeSet s price descr)
    | none => (o1, .sizeSet s price descr)
  | none => (o, .unknownSize)

/-- `add_ingredient(ingredient)`: normalize, check availability, refuse
duplicates (case-insensitively), else append the catalog spelling. -/
def add_ingredient (ingredient : String) (o : Order) : Order × PizzaResp :=
  let n := normalize_ingredient ingredient
  if n ∈ all_ingredients then
    if n ∉ o.ingredients.map pyLower then
      match findOriginal n with
      | some orig => ({ o with ingredients := o.ingredients ++ [orig] }, .ingredientAdded orig)
      | none => (o, .implicitNone)
    else (o, .alreadyHave n)
  else (o, .notAvailable ingredient)

/-- `set_pizza_size(size)`: validate against `pizza_sizes`, set the size. -/
def set_pizza_size (size : String) (o : Order) : Order × PizzaResp :=
  let s := pyStrip (pyLower size)
  match pizza_sizes.lookup s with
  | some (price, descr) => ({ o with size := some s }, .sizeSet s price descr)
  | none => (o, .unknownSize)

/-- The scan of `remove_ingredient`: index of the first ingredient whose
lower-casing equals the query, then `list.pop(i)`. -/
def removeFirst (target : String) : List String → Option (String × List String)
  | [] => none
  | x :: xs =>
    if pyLower x = target then some (x, xs)
    else match removeFirst target xs with
      | some (r, rest) => some (r, x :: rest)
      | none => none

/-- `remove_ingredient(ingredient)`: case-insensitive first match, removed. -/
def remove_ingredient (ingredient : String) (o : Order) : Order × PizzaResp :=
  let i := pyStrip (pyLower ingredient)
  match removeFirst i o.ingredients with
  | some (removed, rest) => ({ o with ingredients := rest }, .ingredientRemoved removed)
  | none => (o, .notOnPizza i)

/-- `show_current_order()`: pure read. -/
def show_current_order (o : Order) : Order × PizzaResp :=
  match o.size with
  | none => (o, .showNoSize)
  | some s =>
    match pizza_sizes.lookup s with
    | some (price, descr) => (o, .showOrder s price descr o.ingredients)
    | none => (o, .keyError)

/-- `confirm_order()`: both preconditions checked before any mutation; the
`confirmed` flag is set before the size table is subscripted. -/
def confirm_order (o : Order) : Order × PizzaResp :=
  match o.size with
  | none => (o, .needSizeFirst)
  | some s =>
    if o.ingredients = [] then (o, .needToppingsFirst)
    else
      let o1 := { o with confirmed := true }
      match pizza_sizes.lookup s with
      | some (price, _) => (o1, .orderConfirmed s o.ingredients price)
      | none => (o1, .keyError)

/-- The argument mapping handed to `execute_function`; only these three keys
are ever read from the parameter dict. -/
structure Params where
  size : Option String
  ingredient : Option String
  main_ingredient : Option String
deriving DecidableEq, Repr

/-- `execute_function(function_name, parameters)`: string-keyed dispatch over
the seven operations; unknown names answer without touching the order. -/
def execute_function (function_name : String) (parameters : Params)
    (o : Order) : Order × PizzaResp :=
  if function_name = "create_pizza_with_size" then
    create_pizza_with_size (parameters.size.getD "") parameters.main_ingredient o
  else if function_name = "add_ingredient" then
    add_ingredient (parameters.ingredient.getD "") o
  else if function_name = "set_pizza_size" then
    set_pizza_size (parameters.size.getD "") o
  else if function_name = "remove_ingredient" then
    remove_ingredient (parameters.ingredient.getD "") o
  else if function_name = "show_current_order" then
    show_current_order o
  else if function_name = "confirm_order" then
    confirm_order o
  else if function_name = "show_available_ingredients" then
    (o, .ingredientCatalog)
  else (o, .couldNotUnderstand)

/-- The completion phrases scanned by `chat` (`pizza.py`); the third contains
an apostrophe, assembled from `apos`. -/
def donePhrases : List String :=
  ["that all", "thats all", String.mk ("that".toList ++ [apos] ++ "s all".toList),
   "done", "finish", "complete"]

/-- Python substring containment (`pat in s`) on character lists. -/
def listContains (pat : List Char) : List Char → Bool
  | [] => pat.isPrefixOf []
  | c :: t => pat.isPrefixOf (c :: t) || listContains pat t

/-- Where a pizza chat turn is answered. -/
inductive PizzaChatAction where
  | reply (r : PizzaResp)
  | modelCall
deriving DecidableEq, Repr

/-- The local part of `PizzeriaBot.chat`, up to (and excluding) the external
model call: when a completion phrase occurs in the lowered, stripped input,
the shortcut either confirms the order (size and ingredients both set) or
shows it; every other input — the empty string included — is forwarded to
the model with the order untouched. -/
def pizza_chat_route (o : Order) (user_message : String) : Order × PizzaChatAction :=
  let userLower := pyStrip (pyLower user_message)
  if donePhrases.any (fun p => listContains p.toList userLower.toList) then
    if o.size ≠ none ∧ o.ingredients ≠ [] then
      let p := confirm_order o
      (p.1, .reply p.2)
    else
      let p := show_current_order o
      (p.1, .reply p.2)
  else (o, .modelCall)

/-! ## Book assistant (`books.py`)

`load_books_data`, the cosine-similarity ranking step of
`find_similar_books`, the regex intent router `detect_intent`, and the
routing part of `chat`. The regular expressions are embedded as explicit
leftmost-then-greedy searches on character lists; `.` is modelled as
matching any character (all inputs considered here are single-line). -/

/-- `re.search(lit + "(.+)", s)` for a literal pattern head: leftmost
occurrence of `lit` followed by a nonempty remainder; the greedy `(.+)`
makes group 1 the whole remainder. -/
def searchLitRest (lit : List Char) : List Char → Option (List Char)
  | [] => none
  | c :: t =>
    if lit.isPrefixOf (c :: t) ∧ (c :: t).drop lit.length ≠ [] then
      some ((c :: t).drop lit.length)
    else searchLitRest lit t

/-- `re.search(r"books? by (.+)", s)`: at each start position the greedy `s?`
tries `"books by "`, then backtracks to `"book by "`. -/
def searchBooksBy : List Char → Option (List Char)
  | [] => none
  | c :: t =>
    if "books by ".toList.isPrefixOf (c :: t) ∧ (c :: t).drop 9 ≠ [] then
      some ((c :: t).drop 9)
    else if "book by ".toList.isPrefixOf (c :: t) ∧ (c :: t).drop 8 ≠ [] then
      some ((c :: t).drop 8)
    else searchBooksBy t

/-- The literal `"'s book"`, assembled from `apos`. -/
def aposSBook : List Char := apos :: "s book".toList

/-- `re.search(r"(.+)'s books?", s)`: a match exists iff `"'s book"` occurs
at some position `j ≥ 1`; leftmost-then-greedy semantics pick the largest
such `j`, and group 1 is the prefix before it (the optional trailing `s`
affects neither). -/
def searchPossessive (s : List Char) : Option (List Char) :=
  match (List.range s.length).reverse.find?
      (fun j => decide (1 ≤ j) && aposSBook.isPrefixOf (s.drop j)) with
  | some j => some (s.take j)
  | none => none

/-- `re.search(r"from (.+) author", s)`: leftmost `"from "` whose remainder
holds `" author"` at some offset `j ≥ 1`; the greedy `(.+)` picks the
largest such `j`, and group 1 lies between the two literals. -/
def searchFromAuthor : List Char → Option (List Char)
  | [] => none
  | c :: t =>
    if "from ".toList.isPrefixOf (c :: t) then
      match ((c :: t).drop 5 : List Char) with
      | rest =>
        match (List.range rest.length).reverse.find?
            (fun j => decide (1 ≤ j) && " author".toList.isPrefixOf (rest.drop j)) with
        | some j => some (rest.take j)
        | none => searchFromAuthor t
    else searchFromAuthor t

/-- The five `author_patterns` of `detect_intent`, tried in order. -/
def author_patterns (s : List Char) : Option (List Char) :=
  (searchBooksBy s).orElse (fun _ =>
  (searchPossessive s).orElse (fun _ =>
  (searchLitRest "author ".toList s).orElse (fun _ =>
  (searchLitRest "written by ".toList s).orElse (fun _ =>
  searchFromAuthor s))))

/-- The five `title_patterns` of `detect_intent`, tried in order. -/
def title_patterns (s : List Char) : Option (List Char) :=
  (searchLitRest "book called ".toList s).orElse (fun _ =>
  (searchLitRest "title ".toList s).orElse (fun _ =>
  (searchLitRest "book titled ".toList s).orElse (fun _ =>
  (searchLitRest "looking for ".toList s).orElse (fun _ =>
  searchLitRest "find ".toList s))))

/-- The dictionary returned by `detect_intent`. -/
structure IntentResult where
  intent : String
  query : String
deriving DecidableEq, Repr

/-- `detect_intent(user_input)`: lower the input, try the author patterns,
then the title patterns, each stripping the captured group; fall back to a
similarity search carrying the original (unlowered) input. -/
def detect_intent (user_input : String) : IntentResult :=
  let lowered := (pyLower user_input).toList
  match author_patterns lowered with
  | some g => ⟨"author_search", pyStrip (String.mk g)⟩
  | none =>
    match title_patterns lowered with
    | some g => ⟨"title_search", pyStrip (String.mk g)⟩
    | none => ⟨"similarity_search", user_input⟩

/-- Where a book chat turn is routed. -/
inductive BooksRoute where
  | promptForInput
  | greeting
  | goodbye
  | dispatch (i : IntentResult)
deriving DecidableEq, Repr

/-- The routing part of `BookRecommenderChatbot.chat`: the empty-input check
precedes the history append and every lookup; greetings and goodbyes get
canned replies; everything else goes through `detect_intent` to a retrieval
dispatch. The history is modelled as the list of recorded user inputs. -/
def books_chat_route (history : List String) (user_input : String) :
    List String × BooksRoute :=
  if pyStrip user_input = "" then (history, .promptForInput)
  else
    let h := history ++ [user_input]
    if pyLower user_input ∈ ["hello", "hi", "hey"] then (h, .greeting)
    else if pyLower user_input ∈ ["bye", "goodbye", "exit", "quit"] then (h, .goodbye)
    else (h, .dispatch (detect_intent user_input))

/-- A loaded catalog record. -/
structure Book where
  title : String
  author : String
  description : String
  combined_text : String
deriving DecidableEq, Repr

/-- The tabular input of `load_books_data` after `pd.read_csv`: header
columns, and rows of cells keyed by column name; a `none` (or absent) cell
is a null. -/
structure CsvFrame where
  columns : List String
  rows : List (List (String × Option String))
deriving DecidableEq, Repr

/-- The `required_columns` list of `load_books_data`. -/
def required_columns : List String := ["title", "author", "description"]

/-- A row's cell in a named column. -/
def cell (row : List (String × Option String)) (c : String) : Option String :=
  (row.lookup c).join

/-- Whether `df.dropna(subset=required_columns)` keeps this row. -/
def rowComplete (row : List (String × Option String)) : Bool :=
  required_columns.all (fun c => (cell row c).isSome)

/-- The record built from a kept row: `combined_text` concatenates the raw
fields (the concatenation happens before `title` and `author` are stripped). -/
def mkBook (row : List (String × Option String)) : Book :=
  let t := (cell row "title").getD ""
  let a := (cell row "author").getD ""
  let d := (cell row "description").getD ""
  { title := pyStrip t, author := pyStrip a, description := d,
    combined_text := t ++ " " ++ a ++ " " ++ d }

/-- `load_books_data`: reject a frame missing required columns with an error
naming exactly the missing ones; drop rows null in any required column;
derive `combined_text` and strip `title`/`author` on the kept rows. -/
def load_books_data (df : CsvFrame) : Except (List String) (List Book) :=
  if required_columns.filter (fun c => ¬ c ∈ df.columns) ≠ [] then
    .error (required_columns.filter (fun c => ¬ c ∈ df.columns))
  else .ok ((df.rows.filter rowComplete).map mkBook)

/-- `similarities[i]` (all index lists used below stay in range). -/
def simAt (sims : List ℚ) (i : Nat) : ℚ := sims.getD i 0

/-- The comparison `np.argsort` orders the index array by, completed with
index order on ties: a stable ascending sort key. -/
def simLE (sims : List ℚ) (i j : Nat) : Prop :=
  simAt sims i < simAt sims j ∨ (simAt sims i = simAt sims j ∧ i ≤ j)

instance (sims : List ℚ) : DecidableRel (simLE sims) := fun i j => by
  unfold simLE; infer_instance

instance (sims : List ℚ) : IsTotal ℕ (simLE sims) :=
  ⟨fun i j => by
    rcases lt_trichotomy (simAt sims i) (simAt sims j) with h | h | h
    · exact Or.inl (Or.inl h)
    · rcases Nat.le_total i j with hij | hij
      · exact Or.inl (Or.inr ⟨h, hij⟩)
      · exact Or.inr (Or.inr ⟨h.symm, hij⟩)
    · exact Or.inr (Or.inl h)⟩

instance (sims : List ℚ) : IsTrans ℕ (simLE sims) :=
  ⟨fun a b c hab hbc => by
    rcases hab with h1 | ⟨e1, l1⟩
    · rcases hbc with h2 | ⟨e2, l2⟩
      · exact Or.inl (h1.trans h2)
      · exact Or.inl (e2 ▸ h1)
    · rcases hbc with h2 | ⟨e2, l2⟩
      · exact Or.inl (e1 ▸ h2)
      · exact Or.inr ⟨e1.trans e2, l1.trans l2⟩⟩

/-- `np.argsort(similarities)` modelled as a stable ascending sort of the
catalog indices `0 .. len-1`. -/
def argsortAsc (sims : List ℚ) : List ℕ :=
  List.insertionSort (simLE sims) (List.range sims.length)

/-- The ranking step of `find_similar_books`, as a function of the cosine
similarity row `similarities`: reverse the ascending argsort, truncate to
`num_recommendations`, then keep entries above the `0.01` floor; each
surviving index contributes its catalog record (kept as the index here)
paired with its similarity score. -/
def find_similar_books (sims : List ℚ) (num_recommendations : Nat) : List (Nat × ℚ) :=
  (((argsortAsc sims).reverse.take num_recommendations).filter
      (fun i => decide (mkRat 1 100 < simAt sims i))).map (fun i => (i, simAt sims i))

/-! ## Frame lemmas for the order operations -/

theorem create_pizza_frame (size : String) (mi : Option String) (o : Order) :
    (create_pizza_with_size size mi o).1.total_price = o.total_price ∧
    (create_pizza_with_size size mi o).1.confirmed = o.confirmed := by
  cases h : pizza_sizes.lookup (pyStrip (pyLower size)) with
  | none => simp [create_pizza_with_size, h]
  | some pd =>
    cases pd with
    | mk p d =>
      cases mi with
      | none => simp [create_pizza_with_size, h]
      | some m =>
        by_cases hm : m = ""
        · simp [create_pizza_with_size, h, hm]
        · by_cases hn : normalize_ingredient m ∈ all_ingredients <;>
            simp [create_pizza_with_size, h, hm, hn]

theorem add_ingredient_frame (i : String) (o : Order) :
    (add_ingredient i o).1.total_price = o.total_price ∧
    (add_ingredient i o).1.confirmed = o.confirmed ∧
    (add_ingredient i o).1.size = o.size := by
  by_cases h1 : normalize_ingredient i ∈ all_ingredients
  · by_cases h2 : normalize_ingredient i ∈ o.ingredients.map pyLower
    · simp [add_ingredient, h1, h2]
    · cases h3 : findOriginal (normalize_ingredient i) with
      | none => simp [add_ingredient, h1, h2, h3]
      | some orig => simp [add_ingredient, h1, h2, h3]
  · simp [add_ingredient, h1]

theorem set_pizza_size_frame (size : String) (o : Order) :
    (set_pizza_size size o).1.total_price = o.total_price ∧
    (set_pizza_size size o).1.confirmed = o.confirmed ∧
    (set_pizza_size size o).1.ingredients = o.ingredients := by
  cases h : pizza_sizes.lookup (pyStrip (pyLower size)) with
  | none => simp [set_pizza_size, h]
  | some pd => cases pd with | mk p d => simp [set_pizza_size, h]

theorem remove_ingredient_frame (i : String) (o : Order) :
    (remove_ingredient i o).1.total_price = o.total_price ∧
    (remove_ingredient i o).1.confirmed = o.confirmed ∧
    (remove_ingredient i o).1.size = o.size := by
  cases h : removeFirst (pyStrip (pyLower i)) o.ingredients with
  | none => simp [remove_ingredient, h]
  | some pr => cases pr with | mk r rest => simp [remove_ingredient, h]

theorem show_current_order_id (o : Order) : (show_current_order o).1 = o := by
  cases hs : o.size with
  | none => simp [show_current_order, hs]
  | some s =>
    cases h : pizza_sizes.lookup s with
    | none => simp [show_current_order, hs, h]
    | some pd => cases pd with | mk p d => simp [show_current_order, hs, h]

/-- The state effect of `confirm_order`, separated from its reply. -/
theorem confirm_order_state (o : Order) :
    (confirm_order o).1 =
      if o.size = none then o
      else if o.ingredients = [] then o
      else { o with confirmed := true } := by
  cases hs : o.size with
  | none => simp [confirm_order, hs]
  | some s =>
    by_cases hi : o.ingredients = []
    · simp [confirm_order, hs, hi]
    · cases h : pizza_sizes.lookup s with
      | none => simp [confirm_order, hs, hi, h]
      | some pd => cases pd with | mk p d => simp [confirm_order, hs, hi, h]

/-! ## Claim theorems -/

/-- C2: `confirm_order` succeeds exactly when a size is set and the
ingredient list is non-empty; on success the `confirmed` flag is set, the
rest of the record is untouched, and the reported total is exactly the
size's table price (ingredients contribute nothing); an unmet precondition
is reported specifically — missing size before missing ingredients — with
the whole order record unchanged. -/
theorem confirm_order_spec (o : Order) (s : String) (price : ℚ) (descr : String) :
    (o.size = none → confirm_order o = (o, .needSizeFirst)) ∧
    (o.size ≠ none → o.ingredients = [] → confirm_order o = (o, .needToppingsFirst)) ∧
    (o.size = some s → pizza_sizes.lookup s = some (price, descr) → o.ingredients ≠ [] →
      confirm_order o =
        ({ o with confirmed := true }, .orderConfirmed s o.ingredients price)) := by
  refine ⟨fun h => by simp [confirm_order, h], fun h1 h2 => ?_, fun h1 h2 h3 => ?_⟩
  · cases hs : o.size with
    | none => exact absurd hs h1
    | some t => simp [confirm_order, hs, h2]
  · simp [confirm_order, h1, h2, h3]

/-- Witness: a large pizza with olives confirms, flips only the flag, and
reports the large-tier price `18.99`. -/
theorem confirm_order_spec_witness :
    confirm_order
        { size := some "large", ingredients := ["olives"], total_price := 0, confirmed := false } =
      ({ size := some "large", ingredients := ["olives"], total_price := 0, confirmed := true },
       .orderConfirmed "large" ["olives"] (mkRat 1899 100)) :=
  (confirm_order_spec _ "large" (mkRat 1899 100) "14 inch").2.2 (by decide) (by decide) (by decide)

/-- C7: `set_pizza_size` with a string whose lower-cased trim is not one of
the four tiers leaves the whole order record unchanged and signals an
unknown size; with a valid tier it changes only the `size` field (reporting
the tier's table price), so previously added ingredients survive — also
when re-run over an already set, different tier. -/
theorem set_pizza_size_spec (o : Order) (size : String) (price : ℚ) (descr : String) :
    (pizza_sizes.lookup (pyStrip (pyLower size)) = none →
      set_pizza_size size o = (o, .unknownSize)) ∧
    (pizza_sizes.lookup (pyStrip (pyLower size)) = some (price, descr) →
      set_pizza_size size o =
        ({ o with size := some (pyStrip (pyLower size)) },
         .sizeSet (pyStrip (pyLower size)) price descr)) := by
  exact ⟨fun h => by simp [set_pizza_size, h], fun h => by simp [set_pizza_size, h]⟩

/-- Witness: re-running with tier `" Large "` over a small pizza keeps the
olives, flips only the size, and reports `18.99`; an unknown size string is
rejected without any change. -/
theorem set_pizza_size_spec_witness :
    set_pizza_size " Large "
        { size := some "small", ingredients := ["olives"], total_price := 0, confirmed := false } =
      ({ size := some "large", ingredients := ["olives"], total_price := 0, confirmed := false },
       .sizeSet "large" (mkRat 1899 100) "14 inch") ∧
    set_pizza_size "family"
        { size := some "small", ingredients := ["olives"], total_price := 0, confirmed := false } =
      ({ size := some "small", ingredients := ["olives"], total_price := 0, confirmed := false },
       .unknownSize) :=
  ⟨(set_pizza_size_spec _ " Large " (mkRat 1899 100) "14 inch").2 (by decide),
   (set_pizza_size_spec _ "family" 0 "").1 (by decide)⟩

/-- C9: `normalize_ingredient` lower-cases and trims its input, returns the
table image when that normal form is a key of the typo/synonym table, and
returns the lower-cased trimmed input itself otherwise; in particular both
the misspelling `"peperoni"` and the canonical `"pepperoni"` normalize to
`"pepperoni"`. -/
theorem normalize_ingredient_spec :
    normalize_ingredient "peperoni" = "pepperoni" ∧
    normalize_ingredient "pepperoni" = "pepperoni" ∧
    (∀ raw mapped, typo_map.lookup (pyStrip (pyLower raw)) = some mapped →
      normalize_ingredient raw = mapped) ∧
    (∀ raw, typo_map.lookup (pyStrip (pyLower raw)) = none →
      normalize_ingredient raw = pyStrip (pyLower raw)) := by
  refine ⟨by decide, by decide, fun raw mapped h => ?_, fun raw h => ?_⟩
  · simp [normalize_ingredient, h]
  · simp [normalize_ingredient, h]

/-- Witness: `" Arugula "` is no typo-table key, so it comes back
lower-cased and trimmed. -/
theorem normalize_ingredient_spec_witness :
    normalize_ingredient " Arugula " = "arugula" :=
  normalize_ingredient_spec.2.2.2 " Arugula " (by decide)

/-- C10: `total_price` starts at `0` and no dispatched operation ever writes
it — `create_pizza_with_size`, `add_ingredient`, `set_pizza_size`,
`remove_ingredient`, `show_current_order`, a successful `confirm_order`,
`show_available_ingredients`, and unknown commands alike carry it through
unchanged; prices shown to the user travel in the reply, read from the size
table. -/
theorem total_price_never_written :
    initial_order.total_price = 0 ∧
    ∀ (name : String) (p : Params) (o : Order),
      (execute_function name p o).1.total_price = o.total_price := by
  refine ⟨rfl, fun name p o => ?_⟩
  unfold execute_function
  split
  · exact (create_pizza_frame _ _ o).1
  split
  · exact (add_ingredient_frame _ o).1
  split
  · exact (set_pizza_size_frame _ o).1
  split
  · exact (remove_ingredient_frame _ o).1
  split
  · rw [show_current_order_id]
  split
  · rw [confirm_order_state]
    split
    · rfl
    split <;> rfl
  split
  · rfl
  · rfl

/-- C8: across every dispatch the `confirmed` flag is monotone — once `true`
it is never reset — and it can flip from `false` to `true` only on a
`"confirm_order"` dispatch against an order whose size is set and whose
ingredient list is non-empty. -/
theorem confirmed_monotone (name : String) (p : Params) (o : Order) :
    (o.confirmed = true → (execute_function name p o).1.confirmed = true) ∧
    ((execute_function name p o).1.confirmed = true → o.confirmed = false →
      name = "confirm_order" ∧ o.size ≠ none ∧ o.ingredients ≠ []) := by
  unfold execute_function
  split
  · rw [(create_pizza_frame _ _ o).2]; exact ⟨id, fun h1 h2 => absurd (h1 ▸ h2) (by simp)⟩
  split
  · rw [(add_ingredient_frame _ o).2.1]; exact ⟨id, fun h1 h2 => absurd (h1 ▸ h2) (by simp)⟩
  split
  · rw [(set_pizza_size_frame _ o).2.1]; exact ⟨id, fun h1 h2 => absurd (h1 ▸ h2) (by simp)⟩
  split
  · rw [(remove_ingredient_frame _ o).2.1]; exact ⟨id, fun h1 h2 => absurd (h1 ▸ h2) (by simp)⟩
  split
  · rw [show_current_order_id]; exact ⟨id, fun h1 h2 => absurd (h1 ▸ h2) (by simp)⟩
  split
  · rename_i hname
    rw [confirm_order_state]
    by_cases hs : o.size = none
    · simp only [hs, if_true]
      exact ⟨id, fun h1 h2 => absurd (h1 ▸ h2) (by simp)⟩
    · simp only [hs, if_false]
      by_cases hi : o.ingredients = []
      · simp only [hi, if_true]
        exact ⟨id, fun h1 h2 => absurd (h1 ▸ h2) (by simp)⟩
      · simp only [hi, if_false]
        exact ⟨fun _ => by simp, fun _ _ => ⟨hname, hs, hi⟩⟩
  split
  · exact ⟨id, fun h1 h2 => absurd (h1 ▸ h2) (by simp)⟩
  · exact ⟨id, fun h1 h2 => absurd (h1 ▸ h2) (by simp)⟩

/-- Witness: a confirmed order stays confirmed through a later
`remove_ingredient` dispatch, and the flag flips on a concrete
`confirm_order` dispatch only with size and ingredients present. -/
theorem confirmed_monotone_witness :
    (execute_function "remove_ingredient" ⟨none, some "olives", none⟩
        { size := some "large", ingredients := ["olives"], total_price := 0,
          confirmed := true }).1.confirmed = true ∧
    ("confirm_order" = "confirm_order" ∧
      ({ size := some "large", ingredients := ["olives"], total_price := 0,
         confirmed := false } : Order).size ≠ none ∧
      ({ size := some "large", ingredients := ["olives"], total_price := 0,
         confirmed := false } : Order).ingredients ≠ []) :=
  ⟨(confirmed_monotone "remove_ingredient" ⟨none, some "olives", none⟩ _).1 (by decide),
   (confirmed_monotone "confirm_order" ⟨none, none, none⟩ _).2 (by decide) (by decide)⟩

/-! ## Ingredient-list invariants (C3) -/

/-- The flat catalog in canonical (source) spelling. -/
def catalogList : List String := (available_ingredients.map Prod.snd).flatten

/-- Every current ingredient is a catalog entry, in catalog spelling. -/
def IngredientsOk (o : Order) : Prop := ∀ x ∈ o.ingredients, x ∈ catalogList

instance (o : Order) : Decidable (IngredientsOk o) := List.decidableBAll _ _

theorem removeFirst_sublist (t : String) :
    ∀ (l rest : List String) (r : String), removeFirst t l = some (r, rest) → rest.Sublist l := by
  intro l
  induction l with
  | nil => intro rest r h; simp [removeFirst] at h
  | cons x xs ih =>
    intro rest r h
    by_cases hx : pyLower x = t
    · simp only [removeFirst, hx, if_true, Option.some.injEq, Prod.mk.injEq] at h
      exact h.2 ▸ List.sublist_cons_self x xs
    · simp only [removeFirst, hx, if_false] at h
      cases hr : removeFirst t xs with
      | none => rw [hr] at h; exact absurd h (by simp)
      | some pr =>
        rw [hr] at h
        cases pr with
        | mk r2 rest2 =>
          simp only [Option.some.injEq, Prod.mk.injEq] at h
          exact h.2 ▸ (ih rest2 r2 hr).cons₂ x

theorem mem_catFold (n : String) :
    ∀ (cats : List (String × List String)) (ings : List String) (x : String),
      x ∈ cats.foldl (fun acc cat =>
          match cat.2.find? (fun orig => pyLower orig == n) with
          | some orig => acc ++ [orig]
          | none => acc) ings →
      x ∈ ings ∨ ∃ cat, cat ∈ cats ∧ x ∈ cat.2 := by
  intro cats
  induction cats with
  | nil => intro ings x h; exact Or.inl h
  | cons c cs ih =>
    intro ings x h
    simp only [List.foldl_cons] at h
    rcases ih _ x h with h1 | ⟨cat, hc, hx⟩
    · cases hf : c.2.find? (fun orig => pyLower orig == n) with
      | none => rw [hf] at h1; exact Or.inl h1
      | some orig =>
        rw [hf] at h1
        rcases List.mem_append.mp h1 with h2 | h2
        · exact Or.inl h2
        · simp only [List.mem_singleton] at h2
          exact Or.inr ⟨c, List.mem_cons_self c cs, h2 ▸ List.mem_of_find?_eq_some hf⟩
    · exact Or.inr ⟨cat, List.mem_cons_of_mem c hc, hx⟩

theorem create_pizza_ingredients_ok (size : String) (mi : Option String) (o : Order)
    (h : IngredientsOk o) : IngredientsOk (create_pizza_with_size size mi o).1 := by
  cases hl : pizza_sizes.lookup (pyStrip (pyLower size)) with
  | none => simpa [create_pizza_with_size, hl] using h
  | some pd =>
    cases pd with
    | mk p d =>
      cases mi with
      | none => intro x hx; simp only [create_pizza_with_size, hl] at hx; exact h x hx
      | some m =>
        by_cases hm : m = ""
        · intro x hx; simp only [create_pizza_with_size, hl, hm] at hx; simp at hx; exact h x hx
        · by_cases hn : normalize_ingredient m ∈ all_ingredients
          · intro x hx
            have e : (create_pizza_with_size size (some m) o).1.ingredients =
                appendCategoryMatches o.ingredients (normalize_ingredient m) := by
              simp [create_pizza_with_size, hl, hm, hn]
            rw [e] at hx
            rcases mem_catFold (normalize_ingredient m) available_ingredients _ x hx with
              h1 | ⟨cat, hc, hx2⟩
            · exact h x h1
            · exact List.mem_flatten.mpr ⟨cat.2, List.mem_map_of_mem Prod.snd hc, hx2⟩
          · intro x hx; simp only [create_pizza_with_size, hl, hm, hn] at hx; simp at hx; exact h x hx

theorem add_ingredient_ok (i : String) (o : Order) :
    (IngredientsOk o → IngredientsOk (add_ingredient i o).1) ∧
    (o.ingredients.Nodup → (add_ingredient i o).1.ingredients.Nodup) := by
  by_cases h1 : normalize_ingredient i ∈ all_ingredients
  · by_cases h2 : normalize_ingredient i ∈ o.ingredients.map pyLower
    · constructor <;> intro h <;> simpa [add_ingredient, h1, h2] using h
    · cases h3 : findOriginal (normalize_ingredient i) with
      | none => constructor <;> intro h <;> simpa [add_ingredient, h1, h2, h3] using h
      | some orig =>
        have horig : pyLower orig = normalize_ingredient i := by
          have := List.find?_some h3
          simpa using this
        have hnotmem : orig ∉ o.ingredients := fun hmem =>
          h2 (horig ▸ List.mem_map_of_mem pyLower hmem)
        have e : (add_ingredient i o).1.ingredients = o.ingredients ++ [orig] := by
          simp [add_ingredient, h1, h2, h3]
        constructor
        · intro h x hx
          rw [e] at hx
          rcases List.mem_append.mp hx with hx1 | hx1
          · exact h x hx1
          · simp only [List.mem_singleton] at hx1
            exact hx1 ▸ List.mem_of_find?_eq_some h3
        · intro h
          rw [e]
          refine List.nodup_append.mpr ⟨h, List.nodup_singleton orig, ?_⟩
          intro a ha hb
          simp only [List.mem_singleton] at hb
          exact hnotmem (hb ▸ ha)
  · constructor <;> intro h <;> simpa [add_ingredient, h1] using h

theorem remove_ingredient_ok (i : String) (o : Order) :
    (IngredientsOk o → IngredientsOk (remove_ingredient i o).1) ∧
    (o.ingredients.Nodup → (remove_ingredient i o).1.ingredients.Nodup) := by
  cases h : removeFirst (pyStrip (pyLower i)) o.ingredients with
  | none => constructor <;> intro hh <;> simpa [remove_ingredient, h] using hh
  | some pr =>
    cases pr with
    | mk r rest =>
      have hsub := removeFirst_sublist (pyStrip (pyLower i)) o.ingredients rest r h
      constructor
      · intro hh x hx
        simp only [remove_ingredient, h] at hx
        exact hh x (hsub.subset hx)
      · intro hh
        simp only [remove_ingredient, h]
        exact hh.sublist hsub

theorem confirm_order_ingredients (o : Order) :
    (confirm_order o).1.ingredients = o.ingredients := by
  rw [confirm_order_state]
  split
  · rfl
  split <;> rfl

/-- C3 (amended): every operation dispatched against the order keeps each
ingredient drawn from the fixed four-category catalog in its canonical
catalog spelling; and every operation other than `create_pizza_with_size`
also preserves freedom from duplicates. `create_pizza_with_size` appends a
valid main ingredient without a duplicate check, so it can break the set
property (see the counterexample). -/
theorem dispatch_ingredients_invariant (name : String) (p : Params) (o : Order) :
    (IngredientsOk o → IngredientsOk (execute_function name p o).1) ∧
    (name ≠ "create_pizza_with_size" → o.ingredients.Nodup →
      (execute_function name p o).1.ingredients.Nodup) := by
  unfold execute_function
  split
  · rename_i h
    exact ⟨create_pizza_ingredients_ok _ _ o, fun hn => absurd h hn⟩
  split
  · exact ⟨(add_ingredient_ok _ o).1, fun _ => (add_ingredient_ok _ o).2⟩
  split
  · have e := (set_pizza_size_frame (p.size.getD "") o).2.2
    exact ⟨fun h x hx => h x (e ▸ hx), fun _ h => e ▸ h⟩
  split
  · exact ⟨(remove_ingredient_ok _ o).1, fun _ => (remove_ingredient_ok _ o).2⟩
  split
  · have e := show_current_order_id o
    exact ⟨fun h x hx => h x (by rwa [e] at hx), fun _ h => by rw [e]; exact h⟩
  split
  · have e := confirm_order_ingredients o
    exact ⟨fun h x hx => h x (e ▸ hx), fun _ h => e ▸ h⟩
  split
  · exact ⟨fun h => h, fun _ h => h⟩
  · exact ⟨fun h => h, fun _ h => h⟩

/-- C3 counterexample: dispatching `create_pizza_with_size` twice with main
ingredient `"pepperoni"` appends it twice, so the ingredient list ends with
a duplicate — it is not a set, refuting the claimed invariant for every
dispatched operation. -/
theorem dispatch_ingredients_invariant_cex :
    (execute_function "create_pizza_with_size" ⟨some "large", none, some "pepperoni"⟩
        (execute_function "create_pizza_with_size" ⟨some "large", none, some "pepperoni"⟩
          initial_order).1).1.ingredients = ["pepperoni", "pepperoni"] ∧
    ¬ (execute_function "create_pizza_with_size" ⟨some "large", none, some "pepperoni"⟩
        (execute_function "create_pizza_with_size" ⟨some "large", none, some "pepperoni"⟩
          initial_order).1).1.ingredients.Nodup :=
  ⟨by decide, by decide⟩

/-- Witness: adding `"Peperoni"` to the fresh order keeps every ingredient a
canonical catalog entry and keeps the list duplicate-free. -/
theorem dispatch_ingredients_invariant_witness :
    IngredientsOk
        (execute_function "add_ingredient" ⟨none, some "Peperoni", none⟩ initial_order).1 ∧
    (execute_function "add_ingredient" ⟨none, some "Peperoni", none⟩
        initial_order).1.ingredients.Nodup :=
  ⟨(dispatch_ingredients_invariant "add_ingredient" ⟨none, some "Peperoni", none⟩
      initial_order).1 (by decide),
   (dispatch_ingredients_invariant "add_ingredient" ⟨none, some "Peperoni", none⟩
      initial_order).2 (by decide) (by decide)⟩

/-- C6 (amended): the book assistant's `chat` short-circuits empty or
whitespace-only input before any lookup — the reply is a prompt for more
input, the conversation history is not appended to, and no intent dispatch
or retrieval happens; the pizza assistant's `chat`, however, has no such
check: an empty or whitespace-only message falls past the completion-phrase
shortcut and is forwarded to the external model call (with the order record
unchanged) instead of being answered by a local prompt. -/
theorem empty_input_short_circuit (history : List String) (o : Order) (s : String) :
    (pyStrip s = "" → books_chat_route history s = (history, .promptForInput)) ∧
    (pyStrip (pyLower s) = "" → pizza_chat_route o s = (o, .modelCall)) := by
  constructor
  · intro h
    simp [books_chat_route, h]
  · intro h
    have hc : donePhrases.any
        (fun p => listContains p.toList (pyStrip (pyLower s)).toList) = false := by
      rw [h]; decide
    simp only [pizza_chat_route, hc]
    simp

/-- C6 counterexample: in the pizza assistant the empty message is not
short-circuited — it reaches the external model call (the `modelCall`
outcome) rather than returning a local prompt, refuting the claim for "both
assistants". -/
theorem empty_input_short_circuit_cex :
    pizza_chat_route initial_order "" = (initial_order, .modelCall) := by
  decide

/-- Witness: the whitespace-only message `"   "` is answered locally by the
book assistant with an unchanged history, and forwarded to the model by the
pizza assistant with an unchanged order. -/
theorem empty_input_short_circuit_witness :
    books_chat_route [] "   " = ([], .promptForInput) ∧
    pizza_chat_route initial_order "   " = (initial_order, .modelCall) :=
  ⟨(empty_input_short_circuit [] initial_order "   ").1 (by decide),
   (empty_input_short_circuit [] initial_order "   ").2 (by decide)⟩

/-- C5: `detect_intent` classifies the three specimen inputs as specified —
`"books by Jane Austen"` as an author search with query `"jane austen"`,
`"book called Dune"` as a title search with query `"dune"`, and
`"something about dragons"` as a similarity search carrying the whole
input — applying author patterns before title patterns on the lower-cased
input and stripping the captured group; whenever no author and no title
pattern matches, the result is a similarity search whose query is the
entire original input. Determinism holds since `detect_intent` is a pure
function of its argument. -/
theorem detect_intent_spec :
    detect_intent "books by Jane Austen" = ⟨"author_search", "jane austen"⟩ ∧
    detect_intent "book called Dune" = ⟨"title_search", "dune"⟩ ∧
    detect_intent "something about dragons" =
      ⟨"similarity_search", "something about dragons"⟩ ∧
    (∀ s, author_patterns (pyLower s).toList = none →
      title_patterns (pyLower s).toList = none →
      detect_intent s = ⟨"similarity_search", s⟩) := by
  refine ⟨by decide, by decide, by decide, fun s h1 h2 => ?_⟩
  have h1d : author_patterns (pyLower s).data = none := h1
  have h2d : title_patterns (pyLower s).data = none := h2
  simp [detect_intent, h1d, h2d]

/-- Witness: `"dragons"` matches no pattern and falls back to similarity
search over the whole input. -/
theorem detect_intent_spec_witness :
    detect_intent "dragons" = ⟨"similarity_search", "dragons"⟩ :=
  detect_intent_spec.2.2.2 "dragons" (by decide) (by decide)

/-- C4 (amended): `load_books_data` fails exactly when some required column
is missing, and the error names exactly the missing columns; on success the
retained records are precisely the rows with no null in a required field,
in catalog order, each contributing its stripped title and author, its raw
description, and the derived combined text. Retained fields are therefore
present (non-null), but they may still be empty strings — only nulls are
dropped, so the claimed non-empty-after-load invariant fails (see the
counterexample). -/
theorem load_books_data_spec (df : CsvFrame) :
    (∀ m, load_books_data df = .error m ↔
      (m = required_columns.filter (fun c => ¬ c ∈ df.columns) ∧ m ≠ [])) ∧
    (∀ books, load_books_data df = .ok books →
      books = (df.rows.filter rowComplete).map mkBook) := by
  by_cases h : required_columns.filter (fun c => ¬ c ∈ df.columns) = []
  · have he : load_books_data df = .ok ((df.rows.filter rowComplete).map mkBook) := by
      unfold load_books_data
      rw [if_neg (not_not_intro h)]
    constructor
    · intro m
      rw [he]
      constructor
      · intro hx
        exact absurd hx (by simp)
      · rintro ⟨h1, h2⟩
        exact absurd (h1.trans h) h2
    · intro books hb
      rw [he] at hb
      injection hb with hbb
      exact hbb.symm
  · have he : load_books_data df =
        .error (required_columns.filter (fun c => ¬ c ∈ df.columns)) := by
      unfold load_books_data
      rw [if_pos h]
    constructor
    · intro m
      rw [he]
      constructor
      · intro hx
        injection hx with hxx
        exact ⟨hxx.symm, hxx ▸ h⟩
      · rintro ⟨h1, _⟩
        rw [h1]
    · intro books hb
      rw [he] at hb
      exact absurd hb (by simp)

/-- C4 counterexample: a row whose title cell is the non-null string `" "`
survives the null filter, and stripping leaves the loaded record with an
empty title — refuting "every retained catalog record has non-empty title,
author, and description". -/
theorem load_books_data_cex :
    load_books_data
        ⟨["title", "author", "description"],
         [[("title", some " "), ("author", some "A"), ("description", some "D")]]⟩ =
      .ok [{ title := "", author := "A", description := "D", combined_text := "  A D" }] := by
  rfl

/-- Witness: a frame whose only row has a null title loads successfully as
the empty catalog — the null row is dropped. -/
theorem load_books_data_spec_witness :
    ([] : List Book) =
      ((⟨["title", "author", "description"],
          [[("title", none), ("author", some "B"), ("description", some "E")]]⟩ :
        CsvFrame).rows.filter rowComplete).map mkBook :=
  (load_books_data_spec _).2 [] (by rfl)

/-! ## Ranking lemmas (C1) -/

theorem argsortAsc_sorted (sims : List ℚ) :
    (argsortAsc sims).Sorted (simLE sims) :=
  List.sorted_insertionSort (simLE sims) (List.range sims.length)

theorem argsortAsc_perm (sims : List ℚ) :
    List.Perm (argsortAsc sims) (List.range sims.length) :=
  List.perm_insertionSort (simLE sims) (List.range sims.length)

theorem argsortAsc_nodup (sims : List ℚ) : (argsortAsc sims).Nodup :=
  (argsortAsc_perm sims).symm.nodup (List.nodup_range _)

theorem argsortAsc_mem_lt (sims : List ℚ) (i : ℕ) (h : i ∈ argsortAsc sims) :
    i < sims.length :=
  List.mem_range.mp ((argsortAsc_perm sims).subset h)

/-- The strict descending order (reverse catalog order on ties) of the
reversed argsort. -/
theorem argsortAsc_reverse_pairwise (sims : List ℚ) :
    (argsortAsc sims).reverse.Pairwise
      (fun i j => simAt sims j < simAt sims i ∨
        (simAt sims j = simAt sims i ∧ j < i)) := by
  rw [List.pairwise_reverse]
  have hand := (argsortAsc_sorted sims).and (argsortAsc_nodup sims)
  refine hand.imp ?_
  rintro i j ⟨hle, hne⟩
  rcases hle with h | ⟨he, hij⟩
  · exact Or.inl h
  · exact Or.inr ⟨he, lt_of_le_of_ne hij hne⟩

/-- C1 (amended): for every similarity row and every requested count `k`,
the ranking returns at most `k` entries; every returned entry scores
strictly above the `0.01` floor; scores are strictly descending — but on
equal scores entries appear in reverse catalog order (larger index first),
since the code reverses a stable ascending argsort; and when no record
clears the floor the result is the empty sequence. -/
theorem find_similar_books_spec (sims : List ℚ) (k : ℕ) :
    (find_similar_books sims k).length ≤ k ∧
    (∀ p ∈ find_similar_books sims k, mkRat 1 100 < p.2) ∧
    (find_similar_books sims k).Pairwise
      (fun p q => q.2 < p.2 ∨ (q.2 = p.2 ∧ q.1 < p.1)) ∧
    ((∀ x ∈ sims, x ≤ mkRat 1 100) → find_similar_books sims k = []) := by
  refine ⟨?_, ?_, ?_, ?_⟩
  · calc (find_similar_books sims k).length
        = (((argsortAsc sims).reverse.take k).filter
            (fun i => decide (mkRat 1 100 < simAt sims i))).length := by
          simp [find_similar_books]
      _ ≤ ((argsortAsc sims).reverse.take k).length :=
          List.length_filter_le _ _
      _ ≤ k := List.length_take_le _ _
  · intro p hp
    simp only [find_similar_books, List.mem_map] at hp
    obtain ⟨i, hi, hip⟩ := hp
    have := (List.mem_filter.mp hi).2
    rw [← hip]
    exact of_decide_eq_true this
  · rw [find_similar_books, List.pairwise_map]
    exact ((argsortAsc_reverse_pairwise sims).sublist
      (List.take_sublist k _)).sublist (List.filter_sublist _)
  · intro hb
    rw [find_similar_books]
    rw [List.filter_eq_nil_iff.mpr, List.map_nil]
    intro i hi
    have hmem : i ∈ argsortAsc sims :=
      List.mem_reverse.mp (List.take_subset k _ hi)
    have hlt := argsortAsc_mem_lt sims i hmem
    have : simAt sims i ≤ mkRat 1 100 := by
      have := hb (sims.getD i 0) (by
        rw [List.getD_eq_getElem sims 0 hlt]
        exact List.getElem_mem hlt)
      exact this
    simp only [decide_eq_true_eq]
    exact not_lt.mpr this

/-- C1 counterexample: two catalog records tie at score `1/2`; the ranking
returns index `1` before index `0` — reverse catalog order — refuting the
claimed stable tie-break by original catalog order. -/
theorem find_similar_books_cex :
    find_similar_books [mkRat 1 2, mkRat 1 2] 2 =
      [(1, mkRat 1 2), (0, mkRat 1 2)] ∧
    ¬ (find_similar_books [mkRat 1 2, mkRat 1 2] 2).Pairwise
        (fun p q => q.2 < p.2 ∨ (p.2 = q.2 ∧ p.1 < q.1)) :=
  ⟨by decide, by decide⟩

/-- Witness: a row entirely below the floor ranks to the empty sequence. -/
theorem find_similar_books_spec_witness :
    find_similar_books [mkRat 1 200, mkRat 1 300] 5 = [] :=
  (find_similar_books_spec [mkRat 1 200, mkRat 1 300] 5).2.2.2 (by decide)

end ChatbotSpec
